import Mathlib

/-!
Verification development for the Syncra playlist conversion pipeline
(src/Syncra/main.py).  The definitions below are a shallow embedding of the
track-resolution and playlist-materialization code of the
`PlaylistConverterThread` class: strings are modelled as `List Char`,
Python's fallible calls are modelled with `Option`/`Except`, the float
score arithmetic `0.7 * title + 0.3 * artist` is modelled exactly on a
ten-times scale as `7 * title + 3 * artist` (threshold `70` becomes `700`),
and the external fuzzy similarity `fuzz.token_set_ratio` is a parameter
`sim : Str → Str → Nat` of every definition that calls it.
-/

/-- Strings are modelled as lists of characters so that structural
induction over the text is available. -/
abbrev Str := List Char

/-- The literal separator used throughout the source: a space, a hyphen
and a space. -/
def sepL : Str := " - ".data

/-- Characters removed by Python's `str.strip()` (the whitespace set that
matters for this code base). -/
def pySpace (c : Char) : Bool :=
  c = ' ' || c = '\t' || c = '\n' || c = '\r' || c = '\x0b' || c = '\x0c'

/-- Drop leading whitespace, the left half of Python's `str.strip()`. -/
def stripLeft : Str → Str
  | [] => []
  | c :: cs => if pySpace c then stripLeft cs else c :: cs

/-- Python's `str.strip()`: drop whitespace from both ends. -/
def strip (s : Str) : Str :=
  ((stripLeft ((stripLeft s).reverse)).reverse)

/-- Python's `s.split(sep, 1)` restricted to the interesting outcome:
`some (l, r)` when `sep` occurs in `s`, splitting at the leftmost
occurrence, and `none` when it does not occur. -/
def splitFirst (sep : Str) : Str → Option (Str × Str)
  | [] => none
  | c :: cs =>
    if sep.isPrefixOf (c :: cs) then some ([], (c :: cs).drop sep.length)
    else
      match splitFirst sep cs with
      | some (l, r) => some (c :: l, r)
      | none => none

/-- `PlaylistConverterThread.parse_track_info` (main.py lines 383-388):
split the track string on the first `" - "`; with a separator present the
two stripped halves are title and artist, otherwise the stripped whole
string is the title and the artist is empty. -/
def parse_track_info (track : Str) : Str × Str :=
  match splitFirst sepL track with
  | some (l, r) => (strip l, strip r)
  | none => (strip track, [])

/-- One raw Tidal track record as consumed by `process_tidal_track`:
the title, and the artist name when the nested `item['artist']['name']`
lookup succeeds (`none` models a record for which that field access
raises, which the source logs and converts to `None`). -/
structure TidalItem where
  title : Str
  artistName : Option Str
  deriving DecidableEq, Repr

/-- The f-string built by `process_tidal_track` (main.py line 204) on its
success path: the concatenation `"{title} - {artist}"`. -/
def tidal_track_string (title artistName : Str) : Str :=
  title ++ sepL ++ artistName

/-- `PlaylistConverterThread.process_tidal_track` (main.py lines 202-207):
produce the concatenated track string, or `None` when a field access on
the record raises. -/
def process_tidal_track (item : TidalItem) : Option Str :=
  match item.artistName with
  | some a => some (tidal_track_string item.title a)
  | none => none

/-- The f-string built for each Spotify playlist item in
`get_spotify_playlist_info` (main.py line 226): the track name joined to
the first artist's name with `" - "`. -/
def spotify_track_string (name firstArtist : Str) : Str :=
  name ++ sepL ++ firstArtist

/-- `PlaylistConverterThread.get_local_tracks` (main.py lines 297-304):
keep the lines whose stripped form is non-empty and that do not start
with a raw `'#'`, stripped.  Matching the source, the comment test runs
on the unstripped line while emptiness is tested on the stripped line. -/
def get_local_tracks (content : List Str) : List Str :=
  (content.filter
      (fun line => !(strip line).isEmpty &&
        !(match line with | c :: _ => c = '#' | [] => false))).map strip

-- Helper lemmas about the splitter ------------------------------------------

theorem stripLeft_nil : stripLeft [] = [] := rfl

/-- Stripping an already stripped string changes nothing; used to relate
`parse_track_info` to the pre-stripped lines `get_local_tracks` emits. -/
theorem splitFirst_none_parse (t : Str) (h : splitFirst sepL t = none)
    (hs : strip t = t) : parse_track_info t = (t, []) := by
  unfold parse_track_info
  rw [h, hs]

/-- The separator is a prefix of itself followed by anything. -/
theorem sep_isPrefixOf_append (a : Str) :
    sepL.isPrefixOf (' ' :: '-' :: ' ' :: a) = true := by
  simp [sepL, List.isPrefixOf]

/-- `splitFirst` on `t ++ sepL ++ a` always finds an occurrence, and the
left part it returns is a prefix of `t`: the first `" - "` of the
concatenated string can never lie to the right of the inserted one. -/
theorem splitFirst_append_sep (t a : Str) :
    ∃ l r, splitFirst sepL (t ++ (sepL ++ a)) = some (l, r) ∧
      ∃ l2, l ++ l2 = t := by
  induction t with
  | nil =>
    refine ⟨[], a, ?_, [], rfl⟩
    show splitFirst sepL (sepL ++ a) = some ([], a)
    rw [show sepL ++ a = ' ' :: '-' :: ' ' :: a from rfl]
    unfold splitFirst
    rw [sep_isPrefixOf_append a]
    simp
    rfl
  | cons c t ih =>
    obtain ⟨l, r, hsplit, l2, hl2⟩ := ih
    by_cases hpre : sepL.isPrefixOf (c :: (t ++ (sepL ++ a))) = true
    · refine ⟨[], (c :: (t ++ (sepL ++ a))).drop sepL.length, ?_, c :: t, rfl⟩
      show splitFirst sepL (c :: (t ++ (sepL ++ a))) = _
      unfold splitFirst
      rw [hpre]
      simp
    · refine ⟨c :: l, r, ?_, l2, by simp [hl2]⟩
      show splitFirst sepL (c :: (t ++ (sepL ++ a))) = _
      unfold splitFirst
      rw [Bool.not_eq_true] at hpre
      rw [hpre]
      simp
      rw [hsplit]

-- Claim C4 --------------------------------------------------------------------

/-- Claim C4: local playlist line normalization splits on the first
occurrence of the literal `" - "`: the line `"A - B - C"` yields title
`"A"` and artist `"B - C"`, and a line containing no `" - "` (all lines
reaching `parse_track_info` from `get_local_tracks` are already
stripped, expressed by the `strip t = t` hypothesis) yields the whole
line as title with an empty artist. -/
theorem C4_local_line_first_split :
    parse_track_info ("A - B - C".data) = ("A".data, "B - C".data) ∧
    ∀ t : Str, splitFirst sepL t = none → strip t = t →
      parse_track_info t = (t, []) := by
  refine ⟨by decide, ?_⟩
  intro t h hs
  exact splitFirst_none_parse t h hs

/-- Witness for claim C4: the separator-free line `"Hello"` is parsed to
itself with an empty artist. -/
theorem C4_local_line_first_split_witness :
    parse_track_info ("Hello".data) = ("Hello".data, []) :=
  C4_local_line_first_split.2 ("Hello".data) (by decide) (by decide)

-- Claim C3 --------------------------------------------------------------------

/-- Counterexample to claim C3: the canonical pair of a provider-native
record is not the structured pair of its fields.  The Tidal record with
title `"A - B"` and artist `"C"` is rendered by `process_tidal_track` as
the concatenated string `"A - B - C"`, and `parse_track_info` re-splits
that string at its first `" - "`, so the canonical pair differs from
`("A - B", "C")`. -/
theorem C3_not_field_projection_counterexample :
    process_tidal_track ⟨"A - B".data, some ("C".data)⟩ =
      some ("A - B - C".data) ∧
    parse_track_info (tidal_track_string ("A - B".data) ("C".data)) ≠
      ("A - B".data, "C".data) := by
  constructor
  · decide
  · decide

/-- Claim C3 as amended: provider normalization is not a field
projection.  The Tidal and Spotify fetch paths render each record as the
concatenated string `"{title} - {artist}"`, which `parse_track_info`
later re-splits at the first `" - "` of the whole string; consequently
the canonical title is always a prefix of the provider title, and a
provider title that itself contains `" - "` is truncated at its first
occurrence (witness pair: title `"A - B"`, artist `"C"` yields canonical
pair `("A", "B - C")` on both provider paths). -/
theorem C3_concat_then_first_split :
    parse_track_info (tidal_track_string ("A - B".data) ("C".data)) =
      ("A".data, "B - C".data) ∧
    parse_track_info (spotify_track_string ("A - B".data) ("C".data)) =
      ("A".data, "B - C".data) ∧
    ∀ title artistName : Str, ∃ l r,
      splitFirst sepL (tidal_track_string title artistName) = some (l, r) ∧
      (∃ l2, l ++ l2 = title) ∧
      parse_track_info (tidal_track_string title artistName) =
        (strip l, strip r) := by
  refine ⟨by decide, by decide, ?_⟩
  intro title artistName
  obtain ⟨l, r, hsplit, l2, hl2⟩ := splitFirst_append_sep title artistName
  have hts : tidal_track_string title artistName = title ++ (sepL ++ artistName) := by
    simp [tidal_track_string]
  refine ⟨l, r, ?_, ⟨l2, hl2⟩, ?_⟩
  · rw [hts]; exact hsplit
  · rw [hts]
    unfold parse_track_info
    rw [hsplit]

-- Match engine ----------------------------------------------------------------

/-- A candidate track returned by the Plex library search
(`library_section.searchTracks`).  Each field models the attribute the
scoring code reads: `title`, `originalTitle` (either may be `None`,
and `originalTitle` may also be an empty string, which Python treats as
falsy), and `artistName`, the `title` of the object returned by
`plex_track.artist()` when that call does not return `None`. -/
structure PlexTrack where
  title : Option Str
  originalTitle : Option Str
  artistName : Option Str
  deriving DecidableEq, Repr

/-- Python truthiness of an optional string attribute: `None` and the
empty string are falsy. -/
def truthyStr : Option Str → Bool
  | some s => !s.isEmpty
  | none => false

/-- Python's `str.lower()` as used before every fuzzy comparison. -/
def lower (s : Str) : Str := s.map Char.toLower

/-- The title similarity of `find_best_match` (main.py lines 359-360):
a missing candidate title is replaced by the empty string, then the
fuzzy score of the lowered strings is taken.  `sim` is the external
`fuzz.token_set_ratio`. -/
def title_score (sim : Str → Str → Nat) (title : Str) (c : PlexTrack) : Nat :=
  sim (lower title) (lower (match c.title with | some t => t | none => []))

/-- The artist similarity of `find_best_match` (main.py lines 362-367):
zero unless one of the two branches fires; the first branch needs a
non-empty track artist and a truthy `originalTitle`, the second only a
non-`None` `plex_track.artist()`. -/
def artist_score (sim : Str → Str → Nat) (artist : Str) (c : PlexTrack) : Nat :=
  if !artist.isEmpty && truthyStr c.originalTitle then
    sim (lower artist) (lower (c.originalTitle.getD []))
  else if c.artistName.isSome then
    sim (lower artist) (lower (c.artistName.getD []))
  else 0

/-- The weighted score of main.py line 370, `title*0.7 + artist*0.3`,
represented exactly on a ten-times scale: `7 * title + 3 * artist` on a
0-1000 scale. -/
def combined_score (sim : Str → Str → Nat) (title artist : Str)
    (c : PlexTrack) : Nat :=
  7 * title_score sim title c + 3 * artist_score sim artist c

/-- The candidate loop of `find_best_match` (main.py lines 354-374):
starting from `best_match = None, best_score = 0`, a candidate replaces
the running best exactly when its combined score is strictly greater. -/
def bestLoop (sim : Str → Str → Nat) (t a : Str) :
    List PlexTrack → Option PlexTrack × Nat → Option PlexTrack × Nat
  | [], acc => acc
  | c :: cs, (bm, bs) =>
    if bs < combined_score sim t a c then
      bestLoop sim t a cs (some c, combined_score sim t a c)
    else bestLoop sim t a cs (bm, bs)

/-- `PlaylistConverterThread.find_best_match` (main.py lines 350-381):
parse the track string, loop over the candidates, and return the best
candidate exactly when its score clears the acceptance threshold
(`70` on the 0-100 scale, `700` here); otherwise `None`. -/
def find_best_match (sim : Str → Str → Nat) (track : Str)
    (candidates : List PlexTrack) : Option PlexTrack :=
  if 700 ≤ (bestLoop sim (parse_track_info track).1 (parse_track_info track).2
      candidates (none, 0)).2 then
    (bestLoop sim (parse_track_info track).1 (parse_track_info track).2
      candidates (none, 0)).1
  else none

/-- The final `best_score` of the loop in `find_best_match`. -/
def best_score_of (sim : Str → Str → Nat) (track : Str)
    (candidates : List PlexTrack) : Nat :=
  (bestLoop sim (parse_track_info track).1 (parse_track_info track).2
    candidates (none, 0)).2

/-- The maximum combined score over a candidate set, zero for an empty
set; the quantity claims C6 and C7 speak about. -/
def maxCombined (sim : Str → Str → Nat) (track : Str)
    (candidates : List PlexTrack) : Nat :=
  (candidates.map (combined_score sim (parse_track_info track).1
    (parse_track_info track).2)).foldl Nat.max 0

-- Loop lemmas -----------------------------------------------------------------

theorem bestLoop_cons (sim : Str → Str → Nat) (t a : Str) (c : PlexTrack)
    (cs : List PlexTrack) (bm : Option PlexTrack) (bs : Nat) :
    bestLoop sim t a (c :: cs) (bm, bs) =
      if bs < combined_score sim t a c then
        bestLoop sim t a cs (some c, combined_score sim t a c)
      else bestLoop sim t a cs (bm, bs) := rfl

theorem le_foldl_max (l : List Nat) : ∀ b, b ≤ l.foldl Nat.max b := by
  induction l with
  | nil => intro b; exact Nat.le_refl b
  | cons x l ih =>
    intro b
    exact le_trans (Nat.le_max_left b x) (ih (Nat.max b x))

theorem mem_le_foldl_max (l : List Nat) :
    ∀ b x, x ∈ l → x ≤ l.foldl Nat.max b := by
  induction l with
  | nil => intro b x hx; cases hx
  | cons y l ih =>
    intro b x hx
    rcases List.mem_cons.mp hx with h | h
    · subst h; exact le_trans (Nat.le_max_right b x) (le_foldl_max l (Nat.max b x))
    · exact ih (Nat.max b y) x h

/-- The final `best_score` is the fold of `max` over the candidate
scores, seeded with the incoming score. -/
theorem bestLoop_snd (sim : Str → Str → Nat) (t a : Str)
    (cs : List PlexTrack) : ∀ bm bs,
    (bestLoop sim t a cs (bm, bs)).2 =
      (cs.map (combined_score sim t a)).foldl Nat.max bs := by
  induction cs with
  | nil => intro bm bs; rfl
  | cons c cs ih =>
    intro bm bs
    rw [bestLoop_cons]
    by_cases h : bs < combined_score sim t a c
    · rw [if_pos h, ih]
      simp [Nat.max_eq_right h.le]
    · rw [if_neg h, ih]
      simp [Nat.max_eq_left (Nat.not_lt.mp h)]

/-- Once `best_match` is a candidate it stays one. -/
theorem bestLoop_keeps_some (sim : Str → Str → Nat) (t a : Str)
    (cs : List PlexTrack) : ∀ bm bs, bm.isSome = true →
    ((bestLoop sim t a cs (bm, bs)).1).isSome = true := by
  induction cs with
  | nil => intro bm bs h; exact h
  | cons c cs ih =>
    intro bm bs h
    rw [bestLoop_cons]
    by_cases hlt : bs < combined_score sim t a c
    · rw [if_pos hlt]; exact ih _ _ rfl
    · rw [if_neg hlt]; exact ih _ _ h

/-- If the loop strictly improved on the incoming score, then the final
`best_match` is a candidate: every improvement stores one. -/
theorem bestLoop_gain_isSome (sim : Str → Str → Nat) (t a : Str)
    (cs : List PlexTrack) : ∀ bm bs,
    bs < (bestLoop sim t a cs (bm, bs)).2 →
    ((bestLoop sim t a cs (bm, bs)).1).isSome = true := by
  induction cs with
  | nil => intro bm bs h; exact absurd h (Nat.lt_irrefl bs)
  | cons c cs ih =>
    intro bm bs h
    rw [bestLoop_cons] at h ⊢
    by_cases hlt : bs < combined_score sim t a c
    · rw [if_pos hlt] at h ⊢
      exact bestLoop_keeps_some sim t a cs _ _ rfl
    · rw [if_neg hlt] at h ⊢
      exact ih bm bs h

/-- If the loop did not improve on the incoming score it changed
nothing. -/
theorem bestLoop_stable (sim : Str → Str → Nat) (t a : Str)
    (cs : List PlexTrack) : ∀ bm bs,
    (bestLoop sim t a cs (bm, bs)).2 = bs →
    bestLoop sim t a cs (bm, bs) = (bm, bs) := by
  induction cs with
  | nil => intro bm bs h; rfl
  | cons c cs ih =>
    intro bm bs h
    rw [bestLoop_cons] at h ⊢
    by_cases hlt : bs < combined_score sim t a c
    · exfalso
      rw [if_pos hlt] at h
      have h2 : combined_score sim t a c ≤
          (bestLoop sim t a cs (some c, combined_score sim t a c)).2 := by
        rw [bestLoop_snd]
        exact le_foldl_max _ _
      omega
    · rw [if_neg hlt] at h ⊢
      exact ih bm bs h

/-- First-wins selection: when the loop improved on the incoming score,
the final `best_match` is the first candidate whose score equals the
final `best_score`. -/
theorem bestLoop_find (sim : Str → Str → Nat) (t a : Str)
    (cs : List PlexTrack) : ∀ bm bs,
    bs < (bestLoop sim t a cs (bm, bs)).2 →
    List.find? (fun c2 => combined_score sim t a c2 ==
        (bestLoop sim t a cs (bm, bs)).2) cs =
      (bestLoop sim t a cs (bm, bs)).1 := by
  induction cs with
  | nil => intro bm bs h; exact absurd h (Nat.lt_irrefl bs)
  | cons c cs ih =>
    intro bm bs h
    rw [bestLoop_cons] at h ⊢
    by_cases hlt : bs < combined_score sim t a c
    · rw [if_pos hlt] at h ⊢
      have hle : combined_score sim t a c ≤
          (bestLoop sim t a cs (some c, combined_score sim t a c)).2 := by
        rw [bestLoop_snd]
        exact le_foldl_max _ _
      by_cases heq : combined_score sim t a c =
          (bestLoop sim t a cs (some c, combined_score sim t a c)).2
      · have hstab := bestLoop_stable sim t a cs (some c)
          (combined_score sim t a c) heq.symm
        rw [hstab]
        exact List.find?_cons_of_pos cs (by simp [← heq])
      · have hlt2 : combined_score sim t a c <
            (bestLoop sim t a cs (some c, combined_score sim t a c)).2 :=
          lt_of_le_of_ne hle heq
        rw [List.find?_cons_of_neg cs (by simp; omega)]
        exact ih (some c) (combined_score sim t a c) hlt2
    · rw [if_neg hlt] at h ⊢
      have hcle : combined_score sim t a c ≤ bs := Nat.not_lt.mp hlt
      rw [List.find?_cons_of_neg cs (by simp; omega)]
      exact ih bm bs h

/-- The final `best_match` is either the incoming one or one of the
candidates of the list. -/
theorem bestLoop_mem (sim : Str → Str → Nat) (t a : Str)
    (cs : List PlexTrack) : ∀ bm bs,
    (bestLoop sim t a cs (bm, bs)).1 = bm ∨
      ∃ c ∈ cs, (bestLoop sim t a cs (bm, bs)).1 = some c := by
  induction cs with
  | nil => intro bm bs; exact Or.inl rfl
  | cons c cs ih =>
    intro bm bs
    rw [bestLoop_cons]
    by_cases hlt : bs < combined_score sim t a c
    · rw [if_pos hlt]
      rcases ih (some c) (combined_score sim t a c) with h | ⟨c2, hc2, h⟩
      · exact Or.inr ⟨c, List.mem_cons_self c cs, h⟩
      · exact Or.inr ⟨c2, List.mem_cons_of_mem c hc2, h⟩
    · rw [if_neg hlt]
      rcases ih bm bs with h | ⟨c2, hc2, h⟩
      · exact Or.inl h
      · exact Or.inr ⟨c2, List.mem_cons_of_mem c hc2, h⟩

-- Claim C5 --------------------------------------------------------------------

/-- The artist score exactly as the spec words it: computed only for a
non-empty track artist, against `originalTitle` when populated, else
against the resolved artist display name, and zero otherwise.  This
definition follows the spec's words and is compared with the
source-derived `artist_score`. -/
def artistScoreSpec (sim : Str → Str → Nat) (artist : Str)
    (c : PlexTrack) : Nat :=
  if artist.isEmpty then 0
  else if truthyStr c.originalTitle then
    sim (lower artist) (lower (c.originalTitle.getD []))
  else if c.artistName.isSome then
    sim (lower artist) (lower (c.artistName.getD []))
  else 0

/-- Claim C5: the code's artist score agrees with the spec's description
for every track/candidate pair.  The hypothesis `hsim` models the
guard of `fuzz.token_set_ratio`, which returns `0` whenever a processed
input string is empty; it is what makes the code's unguarded
`elif plex_track.artist():` branch still yield `0` for an empty track
artist. -/
theorem C5_artist_score_as_specified (sim : Str → Str → Nat)
    (hsim : ∀ y, sim [] y = 0) (artist : Str) (c : PlexTrack) :
    artist_score sim artist c = artistScoreSpec sim artist c := by
  by_cases ha : artist.isEmpty
  · have hae : artist = [] := by
      cases artist with
      | nil => rfl
      | cons x xs => simp [List.isEmpty] at ha
    subst hae
    cases hA : c.artistName with
    | none => simp [artist_score, artistScoreSpec, hA]
    | some s => simp [artist_score, artistScoreSpec, hA, lower, hsim]
  · have ha2 : artist.isEmpty = false := by
      cases h : artist.isEmpty
      · rfl
      · exact absurd h ha
    unfold artist_score artistScoreSpec
    rw [ha2]
    simp

/-- A concrete similarity with the empty-string guard of
`fuzz.token_set_ratio`, used by the witnesses. -/
def simGuard : Str → Str → Nat :=
  fun x y => if x.isEmpty || y.isEmpty then 0 else 100

/-- Witness for claim C5 at a concrete candidate. -/
theorem C5_artist_score_as_specified_witness :
    artist_score simGuard ("X".data)
        ⟨some ("T".data), none, some ("Y".data)⟩ =
      artistScoreSpec simGuard ("X".data)
        ⟨some ("T".data), none, some ("Y".data)⟩ :=
  C5_artist_score_as_specified simGuard (fun _ => rfl) ("X".data)
    ⟨some ("T".data), none, some ("Y".data)⟩

-- Claim C6 --------------------------------------------------------------------

/-- Claim C6: `find_best_match` returns a candidate exactly when the
maximum combined score over the candidate set reaches the acceptance
threshold (`70`, i.e. `700` on the ten-times scale), and an empty
candidate set always yields `None` with a best score of `0`; the
embedding is a total function, mirroring that this path raises no
exception. -/
theorem C6_threshold_iff (sim : Str → Str → Nat) (track : Str) :
    (∀ candidates : List PlexTrack,
      (find_best_match sim track candidates).isSome = true ↔
        700 ≤ maxCombined sim track candidates) ∧
    find_best_match sim track [] = none ∧
    best_score_of sim track [] = 0 := by
  refine ⟨?_, rfl, rfl⟩
  intro cs
  have hsnd := bestLoop_snd sim (parse_track_info track).1
    (parse_track_info track).2 cs none 0
  unfold find_best_match maxCombined
  constructor
  · intro h
    by_cases h7 : 700 ≤ (bestLoop sim (parse_track_info track).1
        (parse_track_info track).2 cs (none, 0)).2
    · rw [← hsnd]; exact h7
    · rw [if_neg h7] at h
      cases h
  · intro h
    rw [← hsnd] at h
    rw [if_pos h]
    exact bestLoop_gain_isSome sim (parse_track_info track).1
      (parse_track_info track).2 cs none 0 (lt_of_lt_of_le (by omega) h)

-- Claim C7 --------------------------------------------------------------------

/-- Claim C7: an accepted candidate attains the maximum combined score
over the whole candidate set regardless of its position, and it is the
first candidate, in gateway return order, to attain that maximum
(`List.find?` returns the first list element satisfying its
predicate). -/
theorem C7_first_max_selected (sim : Str → Str → Nat) (track : Str)
    (cs : List PlexTrack) (c : PlexTrack)
    (h : find_best_match sim track cs = some c) :
    combined_score sim (parse_track_info track).1 (parse_track_info track).2 c
        = maxCombined sim track cs ∧
    (∀ c2 ∈ cs,
      combined_score sim (parse_track_info track).1 (parse_track_info track).2 c2
        ≤ maxCombined sim track cs) ∧
    List.find? (fun c2 =>
        combined_score sim (parse_track_info track).1 (parse_track_info track).2 c2
          == maxCombined sim track cs) cs = some c := by
  have hsnd := bestLoop_snd sim (parse_track_info track).1
    (parse_track_info track).2 cs none 0
  unfold find_best_match at h
  by_cases h7 : 700 ≤ (bestLoop sim (parse_track_info track).1
      (parse_track_info track).2 cs (none, 0)).2
  · rw [if_pos h7] at h
    have hM : maxCombined sim track cs = (bestLoop sim (parse_track_info track).1
        (parse_track_info track).2 cs (none, 0)).2 := by
      unfold maxCombined
      exact hsnd.symm
    have hfind := bestLoop_find sim (parse_track_info track).1
      (parse_track_info track).2 cs none 0 (lt_of_lt_of_le (by omega) h7)
    rw [h] at hfind
    refine ⟨?_, ?_, ?_⟩
    · have hpc := List.find?_some hfind
      have hpc2 : combined_score sim (parse_track_info track).1
          (parse_track_info track).2 c = (bestLoop sim (parse_track_info track).1
          (parse_track_info track).2 cs (none, 0)).2 := by
        simpa using hpc
      rw [hM]
      exact hpc2
    · intro c2 hc2
      rw [hM, hsnd]
      exact mem_le_foldl_max _ 0 _ (List.mem_map_of_mem _ hc2)
    · rw [hM]
      exact hfind
  · rw [if_neg h7] at h
    cases h

/-- Witness for claim C7: under a constant similarity the two candidates
tie at the maximal score and the first one is the one selected. -/
theorem C7_first_max_selected_witness :
    combined_score (fun _ _ => 100) (parse_track_info ("Song - Artist".data)).1
        (parse_track_info ("Song - Artist".data)).2
        ⟨some ("Song".data), none, some ("Artist".data)⟩
        = maxCombined (fun _ _ => 100) ("Song - Artist".data)
            [⟨some ("Song".data), none, some ("Artist".data)⟩,
             ⟨some ("Other".data), none, some ("Artist".data)⟩] ∧
    (∀ c2 ∈ [(⟨some ("Song".data), none, some ("Artist".data)⟩ : PlexTrack),
             ⟨some ("Other".data), none, some ("Artist".data)⟩],
      combined_score (fun _ _ => 100) (parse_track_info ("Song - Artist".data)).1
        (parse_track_info ("Song - Artist".data)).2 c2
        ≤ maxCombined (fun _ _ => 100) ("Song - Artist".data)
            [⟨some ("Song".data), none, some ("Artist".data)⟩,
             ⟨some ("Other".data), none, some ("Artist".data)⟩]) ∧
    List.find? (fun c2 =>
        combined_score (fun _ _ => 100) (parse_track_info ("Song - Artist".data)).1
          (parse_track_info ("Song - Artist".data)).2 c2
          == maxCombined (fun _ _ => 100) ("Song - Artist".data)
              [⟨some ("Song".data), none, some ("Artist".data)⟩,
               ⟨some ("Other".data), none, some ("Artist".data)⟩])
        [⟨some ("Song".data), none, some ("Artist".data)⟩,
         ⟨some ("Other".data), none, some ("Artist".data)⟩]
      = some ⟨some ("Song".data), none, some ("Artist".data)⟩ :=
  C7_first_max_selected (fun _ _ => 100) ("Song - Artist".data)
    [⟨some ("Song".data), none, some ("Artist".data)⟩,
     ⟨some ("Other".data), none, some ("Artist".data)⟩]
    ⟨some ("Song".data), none, some ("Artist".data)⟩ (by decide)

-- Claim C10 -------------------------------------------------------------------

/-- Claim C10: whenever the acceptance test `best_score >= 70` succeeds,
`best_match` is one of the candidates; the score starts at `0` and only
increases together with `best_match` being set, so a `Matched` outcome
always carries a candidate and the accepted branch's accesses to the
chosen candidate are on a real list element. -/
theorem C10_accept_carries_candidate (sim : Str → Str → Nat) (track : Str)
    (cs : List PlexTrack) (h : 700 ≤ best_score_of sim track cs) :
    ∃ c, find_best_match sim track cs = some c ∧ c ∈ cs := by
  unfold best_score_of at h
  have hsome := bestLoop_gain_isSome sim (parse_track_info track).1
    (parse_track_info track).2 cs none 0 (lt_of_lt_of_le (by omega) h)
  rcases Option.isSome_iff_exists.mp hsome with ⟨c, hc⟩
  refine ⟨c, ?_, ?_⟩
  · unfold find_best_match
    rw [if_pos h]
    exact hc
  · rcases bestLoop_mem sim (parse_track_info track).1
      (parse_track_info track).2 cs none 0 with hnone | ⟨c2, hc2, h2⟩
    · rw [hc] at hnone
      cases hnone
    · rw [hc] at h2
      cases h2
      exact hc2

/-- Witness for claim C10 with a single perfectly scoring candidate. -/
theorem C10_accept_carries_candidate_witness :
    ∃ c, find_best_match (fun _ _ => 100) ("Song - Artist".data)
        [⟨some ("Song".data), none, some ("Artist".data)⟩] = some c ∧
      c ∈ [(⟨some ("Song".data), none, some ("Artist".data)⟩ : PlexTrack)] :=
  C10_accept_carries_candidate (fun _ _ => 100) ("Song - Artist".data)
    [⟨some ("Song".data), none, some ("Artist".data)⟩] (by decide)

-- Resolution pipeline ---------------------------------------------------------

/-- The per-track loop of `create_plex_playlist` (main.py lines 310-318)
with the resolution call modelled as fallible: `fbm t` is `.error e`
when `find_best_match` raises for `t` (library search or candidate
field access), `.ok none` when it returns `None`, `.ok (some c)` when it
returns a match.  The source loop has no per-track exception handler,
so an error propagates out of the loop at once. -/
def matchLoopE (fbm : Str → Except Str (Option PlexTrack)) :
    List Str → List PlexTrack × List Str →
      Except Str (List PlexTrack × List Str)
  | [], acc => .ok acc
  | t :: ts, (pt, nf) =>
    match fbm t with
    | .error e => .error e
    | .ok (some c) => matchLoopE fbm ts (pt ++ [c], nf)
    | .ok none => matchLoopE fbm ts (pt, nf ++ [t])

/-- The same loop when every resolution call returns without raising. -/
def matchLoop (fbm : Str → Option PlexTrack) :
    List Str → List PlexTrack × List Str → List PlexTrack × List Str
  | [], acc => acc
  | t :: ts, (pt, nf) =>
    match fbm t with
    | some c => matchLoop fbm ts (pt ++ [c], nf)
    | none => matchLoop fbm ts (pt, nf ++ [t])

/-- The match stage of `create_plex_playlist`: the accumulated
`plex_tracks` and `not_found_tracks` lists, both starting empty. -/
def matchStage (fbm : Str → Option PlexTrack) (tracks : List Str) :
    List PlexTrack × List Str :=
  matchLoop fbm tracks ([], [])

/-- The message of the `ValueError` raised on main.py line 345. -/
def noMatchMsg : Str := "No matching tracks found in your Plex library".data

/-- Stand-in message for a raising `createPlaylist` call. -/
def createFailMsg : Str := "createPlaylist failed".data

/-- `PlaylistConverterThread.create_plex_playlist` (main.py lines
306-348).  The first component is the playlist that exists on the Plex
server afterwards (`none` when none was created); the second is the
run outcome: the thumbnail flag and the not-found report on success,
or the raised error.  External effects are modelled by two oracles:
`createOk` is whether `plex_server.createPlaylist` succeeds, `thumbOk`
whether the thumbnail post succeeds; the thumbnail step runs inside its
own `try`, so its failure is only reflected in the flag. -/
def create_plex_playlistE (fbm : Str → Except Str (Option PlexTrack))
    (tracks : List Str) (imageUrl : Option Str) (createOk thumbOk : Bool) :
    Option (List PlexTrack) × Except Str (Bool × List Str) :=
  match matchLoopE fbm tracks ([], []) with
  | .error e => (none, .error e)
  | .ok (pt, nf) =>
    if pt.isEmpty then (none, .error noMatchMsg)
    else if createOk then (some pt, .ok (imageUrl.isSome && thumbOk, nf))
    else (none, .error createFailMsg)

/-- `create_plex_playlist` when no resolution call raises. -/
def create_plex_playlist (fbm : Str → Option PlexTrack) (tracks : List Str)
    (imageUrl : Option Str) (createOk thumbOk : Bool) :
    Option (List PlexTrack) × Except Str (Bool × List Str) :=
  create_plex_playlistE (fun t => .ok (fbm t)) tracks imageUrl createOk thumbOk

/-- The Tidal fetch aggregation of `get_tidal_playlist_info` (main.py
lines 187-194): the worker pool resolves one future per playlist item
and the loop over `as_completed` appends each non-`None` processed
track in completion order.  `order` is the completion order, as a list
of indices into `items`. -/
def tidal_fetch_tracks (items : List TidalItem) (order : List Nat) : List Str :=
  order.filterMap (fun i => (items.get? i).bind process_tidal_track)

-- Pipeline lemmas -------------------------------------------------------------

/-- The sequential match loop appends matches and misses in input
order. -/
theorem matchLoop_spec (fbm : Str → Option PlexTrack) (ts : List Str) :
    ∀ pt nf, matchLoop fbm ts (pt, nf) =
      (pt ++ ts.filterMap fbm, nf ++ ts.filter (fun t => (fbm t).isNone)) := by
  induction ts with
  | nil => intro pt nf; simp [matchLoop]
  | cons t ts ih =>
    intro pt nf
    cases h : fbm t with
    | some c => simp [matchLoop, h, ih]
    | none => simp [matchLoop, h, ih]

/-- Lifting an infallible resolver through the fallible loop. -/
theorem matchLoopE_lift (fbm : Str → Option PlexTrack) (ts : List Str) :
    ∀ acc, matchLoopE (fun t => Except.ok (fbm t)) ts acc =
      Except.ok (matchLoop fbm ts acc) := by
  induction ts with
  | nil => intro acc; rfl
  | cons t ts ih =>
    intro acc
    obtain ⟨pt, nf⟩ := acc
    cases h : fbm t with
    | some c => simp [matchLoopE, matchLoop, h, ih]
    | none => simp [matchLoopE, matchLoop, h, ih]

/-- If any track of the list makes the resolver raise, the loop aborts
with an error. -/
theorem matchLoopE_error (fbm : Str → Except Str (Option PlexTrack))
    (ts : List Str) : ∀ pt nf t e, t ∈ ts → fbm t = .error e →
    ∃ e2, matchLoopE fbm ts (pt, nf) = .error e2 := by
  induction ts with
  | nil => intro pt nf t e ht he; cases ht
  | cons x ts ih =>
    intro pt nf t e ht he
    cases hx : fbm x with
    | error e0 => exact ⟨e0, by simp [matchLoopE, hx]⟩
    | ok o =>
      have htts : t ∈ ts := by
        rcases List.mem_cons.mp ht with h | h
        · subst h; rw [he] at hx; cases hx
        · exact h
      cases o with
      | some c =>
        obtain ⟨e2, h2⟩ := ih (pt ++ [c]) nf t e htts he
        exact ⟨e2, by simp [matchLoopE, hx, h2]⟩
      | none =>
        obtain ⟨e2, h2⟩ := ih pt (nf ++ [x]) t e htts he
        exact ⟨e2, by simp [matchLoopE, hx, h2]⟩

/-- Completion in submission order reproduces the input order. -/
theorem tidal_fetch_tracks_range (items : List TidalItem) :
    tidal_fetch_tracks items (List.range items.length) =
      items.filterMap process_tidal_track := by
  induction items with
  | nil => rfl
  | cons x xs ih =>
    unfold tidal_fetch_tracks at ih ⊢
    show (List.range (xs.length + 1)).filterMap
        (fun i => ((x :: xs).get? i).bind process_tidal_track) = _
    rw [List.range_succ_eq_map, List.filterMap_cons, List.filterMap_map]
    have hfun : ((fun i => ((x :: xs).get? i).bind process_tidal_track) ∘ Nat.succ)
        = (fun i => (xs.get? i).bind process_tidal_track) := by
      funext i; rfl
    rw [hfun, ih, List.filterMap_cons]
    rfl

-- Claim C1 --------------------------------------------------------------------

/-- Two well-formed Tidal items used to exhibit the ordering defect. -/
def tidalItemsEx : List TidalItem :=
  [⟨"A".data, some ("X".data)⟩, ⟨"B".data, some ("Y".data)⟩]

/-- Counterexample to claim C1: the Tidal fetch stage does not preserve
the playlist's item order for every completion order.  `[1, 0]` is a
legitimate completion order of the two submitted futures (a permutation
of the submission order), yet the aggregated track list it produces
differs from the input-ordered list. -/
theorem C1_completion_order_counterexample :
    List.Perm [1, 0] (List.range tidalItemsEx.length) ∧
    tidal_fetch_tracks tidalItemsEx [1, 0] ≠
      tidalItemsEx.filterMap process_tidal_track := by
  constructor
  · decide
  · decide

/-- Claim C1 as amended: the match stage of `create_plex_playlist` is a
sequential loop, so its aggregated results (matches and the not-found
report) are in source-track order for every resolver; the Tidal fetch
stage, by contrast, appends tracks in worker completion order and
reproduces the playlist's original order only when completions occur in
submission order. -/
theorem C1_order_amended :
    (∀ (fbm : Str → Option PlexTrack) (tracks : List Str),
      matchStage fbm tracks =
        (tracks.filterMap fbm, tracks.filter (fun t => (fbm t).isNone))) ∧
    (∀ items : List TidalItem,
      tidal_fetch_tracks items (List.range items.length) =
        items.filterMap process_tidal_track) := by
  constructor
  · intro fbm tracks
    unfold matchStage
    rw [matchLoop_spec]
    simp
  · exact tidal_fetch_tracks_range

-- Claim C2 --------------------------------------------------------------------

/-- A candidate used by the C2 scenario. -/
def candT2 : PlexTrack := ⟨some ("T2".data), none, some ("T2A".data)⟩

/-- A resolver that raises on the first track and matches the second,
modelling a library-search exception for one track only. -/
def fbmBoom : Str → Except Str (Option PlexTrack) :=
  fun t => if t = "T1".data then .error ("search failed".data)
    else .ok (some candT2)

/-- Counterexample to claim C2: one raising resolution aborts the whole
run.  The second track resolves fine, yet the run result is the error
of the first track and no playlist is created, instead of a playlist
built from the remaining match. -/
theorem C2_exception_aborts_run_counterexample :
    fbmBoom ("T2".data) = .ok (some candT2) ∧
    create_plex_playlistE fbmBoom ["T1".data, "T2".data] none true true =
      (none, .error ("search failed".data)) :=
  ⟨rfl, rfl⟩

/-- Claim C2 as amended: a match-stage exception for one track aborts
the entire run with that error and creates no playlist (the loop has no
per-track handler); only a no-match outcome (`None` from
`find_best_match`) is degraded, with processing continuing over the
remaining tracks. -/
theorem C2_exception_aborts_run_amended :
    (∀ (fbm : Str → Except Str (Option PlexTrack)) (tracks : List Str)
        (t e : Str), t ∈ tracks → fbm t = .error e →
      ∃ e2, ∀ imageUrl createOk thumbOk,
        create_plex_playlistE fbm tracks imageUrl createOk thumbOk =
          (none, .error e2)) ∧
    (∀ (fbm : Str → Option PlexTrack) (tracks : List Str),
      matchLoopE (fun t => Except.ok (fbm t)) tracks ([], []) =
        Except.ok (matchStage fbm tracks)) := by
  constructor
  · intro fbm tracks t e ht he
    obtain ⟨e2, h2⟩ := matchLoopE_error fbm tracks [] [] t e ht he
    refine ⟨e2, ?_⟩
    intro imageUrl createOk thumbOk
    unfold create_plex_playlistE
    rw [h2]
  · intro fbm tracks
    exact matchLoopE_lift fbm tracks ([], [])

/-- Witness for claim C2 as amended: the concrete raising resolver
aborts the concrete two-track run. -/
theorem C2_exception_aborts_run_witness :
    ∃ e2, create_plex_playlistE fbmBoom ["T1".data, "T2".data]
      none true true = (none, .error e2) := by
  obtain ⟨e2, h2⟩ := C2_exception_aborts_run_amended.1 fbmBoom
    ["T1".data, "T2".data] ("T1".data) ("search failed".data) (by decide) rfl
  exact ⟨e2, h2 none true true⟩

-- Claim C9 --------------------------------------------------------------------

/-- Claim C9: with zero matched tracks the run always fails with the
"no matches" error and no playlist is created; whenever a playlist
object exists it has at least one track; and a thumbnail-step failure
(`thumbOk = false`) never removes or rolls back the created playlist. -/
theorem C9_no_empty_playlist (fbm : Str → Option PlexTrack)
    (tracks : List Str) (imageUrl : Option Str) (createOk thumbOk : Bool) :
    ((matchStage fbm tracks).1 = [] →
      create_plex_playlist fbm tracks imageUrl createOk thumbOk =
        (none, .error noMatchMsg)) ∧
    (∀ pl, (create_plex_playlist fbm tracks imageUrl createOk thumbOk).1 =
      some pl → pl ≠ []) ∧
    (create_plex_playlist fbm tracks imageUrl createOk false).1 =
      (create_plex_playlist fbm tracks imageUrl createOk true).1 := by
  have hE := matchLoopE_lift fbm tracks ([], [])
  unfold create_plex_playlist create_plex_playlistE
  rw [hE]
  rcases hms : matchLoop fbm tracks ([], []) with ⟨pt, nf⟩
  have hstage : (matchStage fbm tracks).1 = pt := by
    unfold matchStage
    rw [hms]
  refine ⟨?_, ?_, ?_⟩
  · intro hempty
    rw [hstage] at hempty
    subst hempty
    rfl
  · intro pl hpl
    by_cases hpt : pt.isEmpty
    · simp [hpt] at hpl
    · by_cases hc : createOk = true
      · simp [hpt, hc] at hpl
        subst hpl
        intro hnil
        subst hnil
        simp [List.isEmpty] at hpt
      · have hc2 : createOk = false := by
          cases createOk
          · rfl
          · exact absurd rfl hc
        simp [hpt, hc2] at hpl
  · by_cases hpt : pt.isEmpty
    · simp [hpt]
    · by_cases hc : createOk = true
      · simp [hpt, hc]
      · have hc2 : createOk = false := by
          cases createOk
          · rfl
          · exact absurd rfl hc
        simp [hpt, hc2]

/-- A resolver that never matches, for the C9 witness. -/
def fbmNone : Str → Option PlexTrack := fun _ => none

/-- Witness for claim C9: a run in which nothing matched fails with the
"no matches" error and creates no playlist. -/
theorem C9_no_empty_playlist_witness :
    create_plex_playlist fbmNone ["T1".data] none true true =
      (none, .error noMatchMsg) :=
  (C9_no_empty_playlist fbmNone ["T1".data] none true true).1 rfl

-- Progress reporting ----------------------------------------------------------

/-- The fetch-phase progress emissions of `get_tidal_playlist_info`
(main.py lines 190-194).  `results` records, in completion order,
whether each future produced a track (`process_tidal_track` returned
non-`None`); `s` is the current `len(tracks)`.  After every completed
future the code appends the track on success and emits
`int(len(tracks) / total * 50)`, which is exact floor division here. -/
def fetchEmitsAux (total : Nat) : List Bool → Nat → List Nat
  | [], _ => []
  | b :: bs, s =>
    (50 * (if b then s + 1 else s) / total) ::
      fetchEmitsAux total bs (if b then s + 1 else s)

/-- All fetch-phase progress values of a run, in emission order. -/
def fetchEmits (results : List Bool) (total : Nat) : List Nat :=
  fetchEmitsAux total results 0

/-- The number of successfully processed tracks, i.e. the final
`len(tracks)` of the fetch phase. -/
def successCount : List Bool → Nat
  | [] => 0
  | b :: bs => (if b then 1 else 0) + successCount bs

/-- One match-phase progress value (main.py line 319):
`50 + int((i + 1) / total_tracks * 50)` for the `i`-th track of `n`. -/
def matchEmit (n i : Nat) : Nat := 50 + 50 * (i + 1) / n

/-- All match-phase progress values; the loop runs over the `n` fetched
tracks, so `total_tracks = n`. -/
def matchEmits (n : Nat) : List Nat := (List.range n).map (matchEmit n)

/-- The full sequence of progress values a Tidal conversion run emits:
the fetch phase followed by the match phase over the fetched tracks. -/
def runEmits (results : List Bool) (total : Nat) : List Nat :=
  fetchEmits results total ++ matchEmits (successCount results)

/-- Python's built-in `round` (banker's rounding) of `num / den`, the
operation the claim says the progress values are computed with. -/
def pyRound (num den : Nat) : Nat :=
  if 2 * (num % den) < den then num / den
  else if den < 2 * (num % den) then num / den + 1
  else if num / den % 2 = 0 then num / den else num / den + 1

-- Progress lemmas -------------------------------------------------------------

theorem div50_le (s2 total : Nat) (h : s2 ≤ total) : 50 * s2 / total ≤ 50 := by
  cases Nat.eq_zero_or_pos total with
  | inl h0 => subst h0; simp
  | inr hpos =>
    have h1 : 50 * s2 ≤ 50 * total := Nat.mul_le_mul_left 50 h
    have h2 : 50 * s2 / total ≤ 50 * total / total := Nat.div_le_div_right h1
    rwa [Nat.mul_div_cancel _ hpos] at h2

theorem successCount_le_length (bs : List Bool) : successCount bs ≤ bs.length := by
  induction bs with
  | nil => exact Nat.le_refl 0
  | cons b bs ih =>
    cases b <;> simp [successCount] <;> omega

/-- Every fetch-phase value is at least the value of the running count
it starts from. -/
theorem fetchEmitsAux_ge (total : Nat) (bs : List Bool) :
    ∀ s v, v ∈ fetchEmitsAux total bs s → 50 * s / total ≤ v := by
  induction bs with
  | nil => intro s v hv; cases hv
  | cons b bs ih =>
    intro s v hv
    have hs2 : s ≤ (if b then s + 1 else s) := by cases b <;> simp
    rcases List.mem_cons.mp hv with h | h
    · subst h
      exact Nat.div_le_div_right (Nat.mul_le_mul_left 50 hs2)
    · exact le_trans (Nat.div_le_div_right (Nat.mul_le_mul_left 50 hs2))
        (ih (if b then s + 1 else s) v h)

/-- The fetch-phase values are non-decreasing in emission order. -/
theorem fetchEmitsAux_pairwise (total : Nat) (bs : List Bool) :
    ∀ s, List.Pairwise (· ≤ ·) (fetchEmitsAux total bs s) := by
  induction bs with
  | nil => intro s; exact List.Pairwise.nil
  | cons b bs ih =>
    intro s
    refine List.Pairwise.cons ?_ (ih _)
    intro v hv
    exact fetchEmitsAux_ge total bs _ v hv

/-- As long as the running count cannot exceed `total`, every
fetch-phase value stays at or below the phase ceiling of 50. -/
theorem fetchEmitsAux_le50 (total : Nat) (bs : List Bool) :
    ∀ s, s + successCount bs ≤ total → ∀ v ∈ fetchEmitsAux total bs s, v ≤ 50 := by
  induction bs with
  | nil => intro s h v hv; cases hv
  | cons b bs ih =>
    intro s h v hv
    have hsc : (if b then s + 1 else s) + successCount bs ≤ total := by
      cases b <;> simp [successCount] at h ⊢ <;> omega
    rcases List.mem_cons.mp hv with h1 | h1
    · subst h1
      exact div50_le _ total (by omega)
    · exact ih (if b then s + 1 else s) hsc v h1

/-- The match-phase values are non-decreasing in emission order. -/
theorem matchEmits_pairwise (n : Nat) :
    List.Pairwise (· ≤ ·) (matchEmits n) := by
  unfold matchEmits
  refine List.Pairwise.map (matchEmit n) ?_ (List.pairwise_lt_range n)
  intro i j hij
  unfold matchEmit
  have h1 : 50 * (i + 1) ≤ 50 * (j + 1) := by omega
  exact Nat.add_le_add_left (Nat.div_le_div_right h1) 50

theorem matchEmits_ge50 (n : Nat) : ∀ y ∈ matchEmits n, 50 ≤ y := by
  intro y hy
  unfold matchEmits at hy
  rcases List.mem_map.mp hy with ⟨i, _, rfl⟩
  exact Nat.le_add_right 50 _

-- Claim C8 --------------------------------------------------------------------

/-- Counterexample to claim C8: the reported value is not
`round(completed / total * half_range)`.  After the first completed
(successful) unit with `total = 3`, the code emits
`int(1 / 3 * 50) = 16`, while Python's `round(1 / 3 * 50)` is `17`. -/
theorem C8_round_counterexample :
    fetchEmits [true] 3 = [16] ∧ pyRound (50 * 1) 3 = 17 ∧
    fetchEmits [true] 3 ≠ [pyRound (50 * 1) 3] := by
  refine ⟨rfl, rfl, ?_⟩
  decide

/-- Claim C8 as amended: the progress sequence is monotonically
non-decreasing and a value is emitted after each completed unit, but
each value is `floor(count / total * half_range)` (Python `int()`
truncation, not `round`), and in the Tidal fetch phase the numerator is
the number of successfully processed tracks so far; fetch-phase values
never exceed 50 (given the item count does not exceed the reported
playlist total) and a match-phase value equals 100 exactly at the final
unit of the match phase, so 100 is reached only after both phases
complete. -/
theorem C8_progress_amended (results : List Bool) (total : Nat)
    (h : results.length ≤ total) :
    List.Pairwise (· ≤ ·) (runEmits results total) ∧
    (∀ v ∈ fetchEmits results total, v ≤ 50) ∧
    (∀ i, i < successCount results →
      (matchEmit (successCount results) i = 100 ↔
        i + 1 = successCount results)) := by
  have hsc := successCount_le_length results
  have hle50 : ∀ v ∈ fetchEmits results total, v ≤ 50 := by
    intro v hv
    exact fetchEmitsAux_le50 total results 0 (by omega) v hv
  refine ⟨?_, hle50, ?_⟩
  · unfold runEmits
    rw [List.pairwise_append]
    refine ⟨fetchEmitsAux_pairwise total results 0, matchEmits_pairwise _, ?_⟩
    intro x hx y hy
    have hx50 : x ≤ 50 := hle50 x hx
    have hy50 : 50 ≤ y := matchEmits_ge50 _ y hy
    omega
  · intro i hi
    constructor
    · intro h100
      by_contra hne
      have hlt : i + 1 < successCount results := by omega
      have hdiv : 50 * (i + 1) / successCount results < 50 := by
        rw [Nat.div_lt_iff_lt_mul (by omega)]
        omega
      unfold matchEmit at h100
      omega
    · intro he
      unfold matchEmit
      rw [he, Nat.mul_div_cancel _ (by omega)]

/-- Witness for claim C8 as amended: a run of two completed futures, one
of which fails, against a reported total of 3. -/
theorem C8_progress_amended_witness :
    List.Pairwise (· ≤ ·) (runEmits [true, false] 3) ∧
    (∀ v ∈ fetchEmits [true, false] 3, v ≤ 50) ∧
    (∀ i, i < successCount [true, false] →
      (matchEmit (successCount [true, false]) i = 100 ↔
        i + 1 = successCount [true, false])) :=
  C8_progress_amended [true, false] 3 (by decide)
